import Mathlib

/-!
Verification of the technical-indicator derivation pipeline of the
lightAIHF repository (src/eastmoney_api.py and src/data_fetcher.py).

All floating-point quantities of the Python source are embedded as exact
rationals (`ℚ`).  A pandas value that would be NaN (a rolling window that
has not yet filled, or a division whose denominator is zero, which in IEEE
arithmetic yields a non-finite NaN/±infinity rather than a fault) is
embedded as `none : Option ℚ`; `some q` means a finite numeric value.
Series are Lean lists in date-ascending order (the engine sorts its frame
by date before computing, so the embedding works on the sorted series).
-/

namespace LightAIHF

/-- One OHLCV bar, the parsed form of one comma-separated kline row
(eastmoney_api.get_kline_data, lines 84-96). -/
structure Bar where
  date : String
  open_ : ℚ
  close : ℚ
  high : ℚ
  low : ℚ
  volume : ℚ
  amount : ℚ
  amplitude : ℚ
  changePercent : ℚ
  changeAmount : ℚ
  turnover : ℚ
  deriving DecidableEq, Repr

instance : Inhabited Bar := ⟨⟨"", 0, 0, 0, 0, 0, 0, 0, 0, 0, 0⟩⟩

/-! ### Exponential moving averages

`Series.ewm(span=n, adjust=False).mean()` (eastmoney_api lines 144-147,
data_fetcher lines 237-240) is, by the pandas contract, the recursion
y₀ = x₀, yᵢ = α·xᵢ + (1-α)·yᵢ₋₁ with α = 2/(span+1). -/

/-- Tail of the `ewm(..., adjust=False).mean()` recursion: `prev` is the
previous smoothed value. -/
def ewmAFgo (α : ℚ) (prev : ℚ) : List ℚ → List ℚ
  | [] => []
  | x :: xs =>
    let y := α * x + (1 - α) * prev
    y :: ewmAFgo α y xs

/-- Embedding of `Series.ewm(alpha=α, adjust=False).mean()` on a NaN-free series:
the first output equals the first input, and each later output is
`α·x + (1-α)·previous`. -/
def ewmAF (α : ℚ) : List ℚ → List ℚ
  | [] => []
  | x :: xs => x :: ewmAFgo α x xs

/-- Embedding of `Series.ewm(span=n, adjust=False).mean()`: smoothing factor 2/(n+1). -/
def ewmSpan (n : ℕ) (xs : List ℚ) : List ℚ := ewmAF (2 / (n + 1)) xs

/-- Elementwise difference of two equal-length series. -/
def seriesSub (a b : List ℚ) : List ℚ := List.zipWith (· - ·) a b

/-- Embedding of `df["MACD_DIF"] = exp1 - exp2` with `exp1 = ewm(span=12)`,
`exp2 = ewm(span=26)` on the close series (eastmoney_api lines 144-146). -/
def macdDIF (closes : List ℚ) : List ℚ :=
  seriesSub (ewmSpan 12 closes) (ewmSpan 26 closes)

/-- Embedding of `df["MACD_DEA"] = df["MACD_DIF"].ewm(span=9, adjust=False).mean()`
(eastmoney_api line 147). -/
def macdDEA (closes : List ℚ) : List ℚ := ewmSpan 9 (macdDIF closes)

/-- Embedding of `df["MACD"] = (df["MACD_DIF"] - df["MACD_DEA"]) * 2`
(eastmoney_api line 148). -/
def macdLine (closes : List ℚ) : List ℚ :=
  (seriesSub (macdDIF closes) (macdDEA closes)).map (· * 2)

/-- Specification-side EMA, written exactly as the wording of the spec:
`ema[0] = x[0]`, `ema[i] = α·x[i] + (1-α)·ema[i-1]`, seeded with the
first input value.  Compared against the source-side `ewmAF` embedding. -/
def emaSpec (α : ℚ) (xs : List ℚ) : ℕ → ℚ
  | 0 => xs.getD 0 0
  | i + 1 => α * xs.getD (i + 1) 0 + (1 - α) * emaSpec α xs i

/-! Index characterisation of the source-side EMA recursion. -/

theorem ewmAFgo_length (α prev : ℚ) (xs : List ℚ) :
    (ewmAFgo α prev xs).length = xs.length := by
  induction xs generalizing prev with
  | nil => rfl
  | cons x xs ih => simp [ewmAFgo, ih]

theorem ewmAF_length (α : ℚ) (xs : List ℚ) :
    (ewmAF α xs).length = xs.length := by
  cases xs with
  | nil => rfl
  | cons x xs => simp [ewmAF, ewmAFgo_length]

theorem ewmAFgo_getD_succ (α : ℚ) (xs : List ℚ) (prev : ℚ) (i : ℕ)
    (h : i + 1 < xs.length) :
    (ewmAFgo α prev xs).getD (i + 1) 0 =
      α * xs.getD (i + 1) 0 + (1 - α) * (ewmAFgo α prev xs).getD i 0 := by
  induction xs generalizing prev i with
  | nil => simp at h
  | cons x xs ih =>
    cases i with
    | zero =>
      cases xs with
      | nil => simp at h
      | cons z zs => simp [ewmAFgo]
    | succ j =>
      have h' : j + 1 < xs.length := by simpa using h
      simpa [ewmAFgo] using ih _ j h'

theorem ewmAF_getD_succ (α : ℚ) (xs : List ℚ) (i : ℕ)
    (h : i + 1 < xs.length) :
    (ewmAF α xs).getD (i + 1) 0 =
      α * xs.getD (i + 1) 0 + (1 - α) * (ewmAF α xs).getD i 0 := by
  cases xs with
  | nil => simp at h
  | cons x xs =>
    cases i with
    | zero =>
      cases xs with
      | nil => simp at h
      | cons z zs => simp [ewmAF, ewmAFgo]
    | succ j =>
      have h' : j + 1 < xs.length := by simpa using h
      simpa [ewmAF] using ewmAFgo_getD_succ α xs x j h'

/-- The source-side pandas recursion agrees with the indexed EMA of the spec
formula at every in-range index. -/
theorem ewmAF_getD_eq_emaSpec (α : ℚ) (xs : List ℚ) (i : ℕ)
    (h : i < xs.length) :
    (ewmAF α xs).getD i 0 = emaSpec α xs i := by
  induction i with
  | zero =>
    cases xs with
    | nil => simp at h
    | cons x xs => simp [ewmAF, emaSpec]
  | succ j ih =>
    have hj : j < xs.length := Nat.lt_of_succ_lt h
    rw [ewmAF_getD_succ α xs j h, ih hj]
    rfl

theorem ewmSpan_getD_eq_emaSpec (n : ℕ) (xs : List ℚ) (i : ℕ)
    (h : i < xs.length) :
    (ewmSpan n xs).getD i 0 = emaSpec (2 / (n + 1)) xs i :=
  ewmAF_getD_eq_emaSpec _ xs i h

theorem seriesSub_getD (a b : List ℚ) (i : ℕ) (ha : i < a.length)
    (hb : i < b.length) :
    (seriesSub a b).getD i 0 = a.getD i 0 - b.getD i 0 := by
  have hl : i < (seriesSub a b).length := by
    simpa [seriesSub] using ⟨ha, hb⟩
  rw [List.getD_eq_getElem _ _ hl, List.getD_eq_getElem _ _ ha,
    List.getD_eq_getElem _ _ hb]
  simp [seriesSub]

/-- C1: the MACD columns of the engine realise the spec formulas
DIF = EMA(close,12) − EMA(close,26), DEA = EMA(DIF,9),
MACD_line = (DIF − DEA)·2, where EMA with span n is the recursion
ema[0] = x[0], ema[i] = α·x[i] + (1-α)·ema[i-1], α = 2/(n+1),
seeded with the first input value. -/
theorem macd_matches_spec (closes : List ℚ) (i : ℕ) (h : i < closes.length) :
    (macdDIF closes).getD i 0
        = emaSpec (2 / 13) closes i - emaSpec (2 / 27) closes i
      ∧ (macdDEA closes).getD i 0 = emaSpec (2 / 10) (macdDIF closes) i
      ∧ (macdLine closes).getD i 0
        = ((macdDIF closes).getD i 0 - (macdDEA closes).getD i 0) * 2 := by
  have h12 : i < (ewmSpan 12 closes).length := by
    simpa [ewmSpan, ewmAF_length] using h
  have h26 : i < (ewmSpan 26 closes).length := by
    simpa [ewmSpan, ewmAF_length] using h
  have hdif : (macdDIF closes).length = closes.length := by
    simp [macdDIF, seriesSub, ewmSpan, ewmAF_length]
  have hdi : i < (macdDIF closes).length := by rw [hdif]; exact h
  have hde : i < (macdDEA closes).length := by
    simpa [macdDEA, ewmSpan, ewmAF_length] using hdi
  refine ⟨?_, ?_, ?_⟩
  · rw [macdDIF, seriesSub_getD _ _ i h12 h26,
      ewmSpan_getD_eq_emaSpec 12 closes i h,
      ewmSpan_getD_eq_emaSpec 26 closes i h]
    norm_num
  · rw [macdDEA, ewmSpan_getD_eq_emaSpec 9 (macdDIF closes) i hdi]
    norm_num
  · have hsub : i < (seriesSub (macdDIF closes) (macdDEA closes)).length := by
      simpa [seriesSub] using ⟨hdi, hde⟩
    have := seriesSub_getD (macdDIF closes) (macdDEA closes) i hdi hde
    rw [macdLine, List.getD_eq_getElem _ _ (by simpa using hsub),
      List.getElem_map]
    rw [List.getD_eq_getElem _ _ hsub] at this
    rw [this]

/-! ### Rolling windows and KDJ

`df["low"].rolling(window=9).min()` (eastmoney_api line 151, data_fetcher
line 244) keeps the pandas default `min_periods = window`: the first
`window - 1` positions of the result are NaN (embedded as `none`), and
from position `window - 1` on the value is taken over the inclusive
trailing window of exactly `window` bars. -/

/-- The inclusive trailing window of width `w` ending at position `i`. -/
def windowAt (w : ℕ) (xs : List ℚ) (i : ℕ) : List ℚ :=
  (xs.take (i + 1)).drop (i + 1 - w)

/-- Minimum of a list (0 on the empty list, which never occurs in a
rolling window of positive width). -/
def minD : List ℚ → ℚ
  | [] => 0
  | x :: xs => xs.foldl min x

/-- Maximum of a list (0 on the empty list). -/
def maxD : List ℚ → ℚ
  | [] => 0
  | x :: xs => xs.foldl max x

/-- Embedding of `Series.rolling(window=w).mean()`: NaN (`none`) until the window
fills, then the arithmetic mean of the trailing `w` values
(eastmoney_api lines 168-181). -/
def rollingMean (w : ℕ) (xs : List ℚ) : List (Option ℚ) :=
  (List.range xs.length).map fun i =>
    if i + 1 < w then none else some ((windowAt w xs i).sum / w)

/-- eastmoney_api line 153:
`RSV = (close - low_9) / (high_9 - low_9 + 0.000001) * 100`.
`none` at a position where the 9-bar rolling min/max has not yet filled
(pandas NaN), or where the guarded denominator is zero (a non-finite
IEEE quotient). -/
def rsvEM (bars : List Bar) : List (Option ℚ) :=
  (List.range bars.length).map fun i =>
    if i + 1 < 9 then none
    else
      let lo := minD (windowAt 9 (bars.map Bar.low) i)
      let hi := maxD (windowAt 9 (bars.map Bar.high) i)
      let den := hi - lo + 1 / 1000000
      if den = 0 then none
      else some (((bars.map Bar.close).getD i 0 - lo) / den * 100)

/-- data_fetcher line 246: `RSV = (close - low_9) / (high_9 - low_9) * 100`
— the same computation but with no epsilon guard on the denominator.
`none` again embeds pandas NaN / a non-finite quotient. -/
def rsvDF (bars : List Bar) : List (Option ℚ) :=
  (List.range bars.length).map fun i =>
    if i + 1 < 9 then none
    else
      let lo := minD (windowAt 9 (bars.map Bar.low) i)
      let hi := maxD (windowAt 9 (bars.map Bar.high) i)
      let den := hi - lo
      if den = 0 then none
      else some (((bars.map Bar.close).getD i 0 - lo) / den * 100)

/-- Embedding of `Series.ewm(alpha=α, adjust=False).mean()` on a series that may hold
NaNs: a missing value leaves the running smoothed value unchanged and the
output at that position repeats it; the first present value seeds the
recursion.  In this engine missing values occur only as the unfilled
leading prefix of a rolling window. -/
def ewmAFOptGo (α : ℚ) (st : Option ℚ) : List (Option ℚ) → List (Option ℚ)
  | [] => []
  | none :: rest =>
    match st with
    | none => none :: ewmAFOptGo α none rest
    | some p => some p :: ewmAFOptGo α (some p) rest
  | some x :: rest =>
    match st with
    | none => some x :: ewmAFOptGo α (some x) rest
    | some p =>
      let y := α * x + (1 - α) * p
      some y :: ewmAFOptGo α (some y) rest

def ewmAFOpt (α : ℚ) (l : List (Option ℚ)) : List (Option ℚ) :=
  ewmAFOptGo α none l

/-- eastmoney_api line 154: `K = RSV.ewm(alpha=1/3, adjust=False).mean()`. -/
def kdjK_EM (bars : List Bar) : List (Option ℚ) :=
  ewmAFOpt (1 / 3) (rsvEM bars)

/-- eastmoney_api line 155: `D = K.ewm(alpha=1/3, adjust=False).mean()`. -/
def kdjD_EM (bars : List Bar) : List (Option ℚ) :=
  ewmAFOpt (1 / 3) (kdjK_EM bars)

/-- Pointwise `3*K - 2*D`; NaN (`none`) if either operand is missing. -/
def optJ (a b : Option ℚ) : Option ℚ :=
  match a, b with
  | some x, some y => some (3 * x - 2 * y)
  | _, _ => none

/-- eastmoney_api line 156: `J = 3*K - 2*D`. -/
def kdjJ_EM (bars : List Bar) : List (Option ℚ) :=
  List.zipWith optJ (kdjK_EM bars) (kdjD_EM bars)

/-- The RSV the engine would compute over the whole series as a single
window (what C4 asserts for a series of exactly 9 bars). -/
def rsvFull (bars : List Bar) : Option ℚ :=
  let lo := minD (bars.map Bar.low)
  let hi := maxD (bars.map Bar.high)
  let den := hi - lo + 1 / 1000000
  if den = 0 then none
  else some (((bars.map Bar.close).getD 8 0 - lo) / den * 100)

/-! Supporting lemmas. -/

theorem getD_map_range {β : Type} (f : ℕ → β) (n i : ℕ) (h : i < n) (d : β) :
    ((List.range n).map f).getD i d = f i := by
  rw [List.getD_eq_getElem _ _ (by simpa using h)]
  simp

theorem foldl_min_all_eq (c : ℚ) :
    ∀ (l : List ℚ) (acc : ℚ), acc = c → (∀ x ∈ l, x = c) →
      l.foldl min acc = c := by
  intro l
  induction l with
  | nil => intro acc hacc _; simpa using hacc
  | cons x xs ih =>
    intro acc hacc hall
    have hx : x = c := hall x (by simp)
    have : min acc x = c := by rw [hacc, hx]; simp
    exact ih (min acc x) this fun y hy => hall y (by simp [hy])

theorem foldl_max_all_eq (c : ℚ) :
    ∀ (l : List ℚ) (acc : ℚ), acc = c → (∀ x ∈ l, x = c) →
      l.foldl max acc = c := by
  intro l
  induction l with
  | nil => intro acc hacc _; simpa using hacc
  | cons x xs ih =>
    intro acc hacc hall
    have hx : x = c := hall x (by simp)
    have : max acc x = c := by rw [hacc, hx]; simp
    exact ih (max acc x) this fun y hy => hall y (by simp [hy])

theorem minD_all_eq (c : ℚ) (l : List ℚ) (hne : l ≠ [])
    (hall : ∀ x ∈ l, x = c) : minD l = c := by
  cases l with
  | nil => exact absurd rfl hne
  | cons x xs =>
    exact foldl_min_all_eq c xs x (hall x (by simp))
      fun y hy => hall y (by simp [hy])

theorem maxD_all_eq (c : ℚ) (l : List ℚ) (hne : l ≠ [])
    (hall : ∀ x ∈ l, x = c) : maxD l = c := by
  cases l with
  | nil => exact absurd rfl hne
  | cons x xs =>
    exact foldl_max_all_eq c xs x (hall x (by simp))
      fun y hy => hall y (by simp [hy])

theorem ewmAFOptGo_length (α : ℚ) :
    ∀ (l : List (Option ℚ)) (st : Option ℚ),
      (ewmAFOptGo α st l).length = l.length := by
  intro l
  induction l with
  | nil => intro st; rfl
  | cons x xs ih =>
    intro st
    cases x <;> cases st <;> simp [ewmAFOptGo, ih]

theorem ewmAFOpt_length (α : ℚ) (l : List (Option ℚ)) :
    (ewmAFOpt α l).length = l.length := ewmAFOptGo_length α l none

/-- The unadjusted smoothing outputs a present value wherever its input
is present, whatever the running state. -/
theorem ewmAFOptGo_isSome (α : ℚ) :
    ∀ (l : List (Option ℚ)) (st : Option ℚ) (i : ℕ), i < l.length →
      (l.getD i none).isSome → ((ewmAFOptGo α st l).getD i none).isSome := by
  intro l
  induction l with
  | nil => intro st i h; simp at h
  | cons x xs ih =>
    intro st i h hsome
    cases i with
    | zero =>
      cases x with
      | none => simp at hsome
      | some v => cases st <;> simp [ewmAFOptGo]
    | succ j =>
      have hj : j < xs.length := by simpa using h
      have hsome' : (xs.getD j none).isSome := by simpa using hsome
      cases x <;> cases st <;> simpa [ewmAFOptGo] using ih _ j hj hsome'

theorem ewmAFOpt_isSome (α : ℚ) (l : List (Option ℚ)) (i : ℕ)
    (h : i < l.length) (hsome : (l.getD i none).isSome) :
    ((ewmAFOpt α l).getD i none).isSome :=
  ewmAFOptGo_isSome α l none i h hsome

theorem rsvEM_length (bars : List Bar) :
    (rsvEM bars).length = bars.length := by
  simp [rsvEM]

/-- C4 counterexample input: nine ordinary bars. -/
def c4bars : List Bar :=
  [⟨"d1", 10, 11, 12, 9, 100, 1000, 1, 1, 1, 1⟩,
   ⟨"d2", 11, 12, 13, 10, 100, 1000, 1, 1, 1, 1⟩,
   ⟨"d3", 12, 13, 14, 11, 100, 1000, 1, 1, 1, 1⟩,
   ⟨"d4", 13, 14, 15, 12, 100, 1000, 1, 1, 1, 1⟩,
   ⟨"d5", 14, 15, 16, 13, 100, 1000, 1, 1, 1, 1⟩,
   ⟨"d6", 15, 16, 17, 14, 100, 1000, 1, 1, 1, 1⟩,
   ⟨"d7", 16, 17, 18, 15, 100, 1000, 1, 1, 1, 1⟩,
   ⟨"d8", 17, 18, 19, 16, 100, 1000, 1, 1, 1, 1⟩,
   ⟨"d9", 18, 19, 20, 17, 100, 1000, 1, 1, 1, 1⟩]

/-- C4 is false as stated: on a 9-bar series the RSV of the engine is NaN
(`none`) at position 0, not a value over the partial window bars 0..0. -/
theorem kdj_rsv_partial_start_counterexample :
    c4bars.length = 9 ∧ (rsvEM c4bars).getD 0 none = none := by decide

/-- C4 (amended): the rolling 9-bar RSV keeps the pandas default
`min_periods = window`: positions 0..7 are NaN (`none`), a series of
fewer than 9 bars yields only NaN (and the computation is total, so the
engine cannot raise), and on a series of exactly 9 bars the single
defined window — position 8 — is the full series. -/
theorem kdj_rsv_window_semantics (bars : List Bar) :
    (∀ i, i < bars.length → i + 1 < 9 → (rsvEM bars).getD i none = none)
      ∧ (bars.length < 9 → ∀ x ∈ rsvEM bars, x = none)
      ∧ (bars.length = 9 → (rsvEM bars).getD 8 none = rsvFull bars) := by
  refine ⟨?_, ?_, ?_⟩
  · intro i hi hsmall
    rw [rsvEM, getD_map_range _ _ _ hi]
    simp [hsmall]
  · intro hlen x hx
    rw [rsvEM, List.mem_map] at hx
    obtain ⟨i, hi, rfl⟩ := hx
    have : i + 1 < 9 := by
      have := List.mem_range.mp hi
      omega
    simp [this]
  · intro hlen
    have h8 : 8 < bars.length := by omega
    rw [rsvEM, getD_map_range _ _ _ h8]
    have htake : ∀ (f : Bar → ℚ), windowAt 9 (bars.map f) 8 = bars.map f := by
      intro f
      rw [windowAt]
      have hle : (bars.map f).length ≤ 9 := by simp [hlen]
      rw [List.take_of_length_le hle]
      rfl
    rw [rsvFull]
    simp only [htake]
    norm_num

/-- Witness for the amended C4 theorem: a different concrete 9-bar series. -/
def c4wit : List Bar :=
  (List.range 9).map fun n =>
    ⟨"", (n : ℚ) + 1, (n : ℚ) + 2, (n : ℚ) + 3, (n : ℚ), 10, 10, 0, 0, 0, 0⟩

theorem kdj_rsv_window_semantics_witness :
    (rsvEM c4wit).getD 0 none = none
      ∧ (rsvEM c4wit).getD 8 none = rsvFull c4wit :=
  ⟨(kdj_rsv_window_semantics c4wit).1 0 (by decide) (by decide),
   (kdj_rsv_window_semantics c4wit).2.2 (by decide)⟩

/-! ### C5: epsilon guard on a zero-range KDJ window -/

/-- C5 (amended, eastmoney_api side): on a 25-bar series whose trailing
9-bar window is flat (`low = high = c` on every window bar), the latest
RSV is computed through the `+ 0.000001` guarded denominator — so it
equals `(close − c) · 10⁸` — and the latest J value is a finite number. -/
theorem kdj_epsilon_guard_em (bars : List Bar) (c : ℚ)
    (hlen : bars.length = 25)
    (hflat : ∀ b ∈ bars.drop 16, b.low = c ∧ b.high = c) :
    (rsvEM bars).getD 24 none
        = some (((bars.getD 24 default).close - c) * 100000000)
      ∧ ∃ v, (kdjJ_EM bars).getD 24 none = some v := by
  have h24 : 24 < bars.length := by omega
  have hwin : ∀ (f : Bar → ℚ), windowAt 9 (bars.map f) 24 = (bars.drop 16).map f := by
    intro f
    rw [windowAt]
    have hle : (bars.map f).length ≤ 25 := by simp [hlen]
    rw [List.take_of_length_le hle]
    simp [List.map_drop]
  have hmapne : ∀ (f : Bar → ℚ), (bars.drop 16).map f ≠ [] := by
    intro f hnil
    have h9 : ((bars.drop 16).map f).length = 9 := by simp [hlen]
    rw [hnil] at h9
    simp at h9
  have hlo : minD (windowAt 9 (bars.map Bar.low) 24) = c := by
    rw [hwin Bar.low]
    refine minD_all_eq c _ (hmapne Bar.low) ?_
    intro x hx
    rw [List.mem_map] at hx
    obtain ⟨b, hb, rfl⟩ := hx
    exact (hflat b hb).1
  have hhi : maxD (windowAt 9 (bars.map Bar.high) 24) = c := by
    rw [hwin Bar.high]
    refine maxD_all_eq c _ (hmapne Bar.high) ?_
    intro x hx
    rw [List.mem_map] at hx
    obtain ⟨b, hb, rfl⟩ := hx
    exact (hflat b hb).2
  have hclose : (bars.map Bar.close).getD 24 0 = (bars.getD 24 default).close := by
    rw [List.getD_eq_getElem _ _ (by simpa using h24),
      List.getD_eq_getElem _ _ h24]
    simp
  have hrsv : (rsvEM bars).getD 24 none
      = some (((bars.getD 24 default).close - c) * 100000000) := by
    rw [rsvEM, getD_map_range _ _ _ h24]
    simp only [hlo, hhi, hclose]
    norm_num
    rw [div_eq_mul_inv, one_div, inv_inv]
    ring
  refine ⟨hrsv, ?_⟩
  have hrsvlen : (rsvEM bars).length = bars.length := rsvEM_length bars
  have h24r : 24 < (rsvEM bars).length := by rw [hrsvlen]; omega
  have hKsome : ((kdjK_EM bars).getD 24 none).isSome := by
    refine ewmAFOpt_isSome _ _ _ h24r ?_
    rw [hrsv]
    rfl
  have h24k : 24 < (kdjK_EM bars).length := by
    rw [kdjK_EM, ewmAFOpt_length]
    exact h24r
  have hDsome : ((kdjD_EM bars).getD 24 none).isSome :=
    ewmAFOpt_isSome _ _ _ h24k hKsome
  have h24d : 24 < (kdjD_EM bars).length := by
    rw [kdjD_EM, ewmAFOpt_length]
    exact h24k
  obtain ⟨kv, hkv⟩ := Option.isSome_iff_exists.mp hKsome
  obtain ⟨dv, hdv⟩ := Option.isSome_iff_exists.mp hDsome
  refine ⟨3 * kv - 2 * dv, ?_⟩
  have h24j : 24 < (kdjJ_EM bars).length := by
    rw [kdjJ_EM]
    simp only [List.length_zipWith]
    omega
  rw [kdjJ_EM, List.getD_eq_getElem _ _ (by simpa [kdjJ_EM] using h24j),
    List.getElem_zipWith]
  rw [List.getD_eq_getElem _ _ h24k] at hkv
  rw [List.getD_eq_getElem _ _ h24d] at hdv
  rw [hkv, hdv]
  rfl

/-- A bar with the given open, close, high, low and constant volume. -/
def mkb (o c h l : ℚ) : Bar := ⟨"", o, c, h, l, 5, 5, 0, 0, 0, 0⟩

/-- Witness input for the amended C5 theorem: 25 bars whose last nine are
flat at price 7. -/
def c5wit : List Bar :=
  [mkb 1 2 3 1, mkb 2 3 4 2, mkb 3 4 5 3, mkb 4 5 6 4,
   mkb 5 6 7 5, mkb 6 7 8 6, mkb 5 6 7 5, mkb 4 5 6 4,
   mkb 3 4 5 3, mkb 2 3 4 2, mkb 3 4 5 3, mkb 4 5 6 4,
   mkb 5 6 7 5, mkb 6 7 8 6, mkb 7 8 9 7, mkb 8 9 10 8]
    ++ List.replicate 9 (mkb 7 7 7 7)

theorem kdj_epsilon_guard_em_witness :
    (rsvEM c5wit).getD 24 none
        = some (((c5wit.getD 24 default).close - 7) * 100000000)
      ∧ ∃ v, (kdjJ_EM c5wit).getD 24 none = some v :=
  kdj_epsilon_guard_em c5wit 7 (by decide) (by decide)

/-- C5 counterexample input: 25 bars, the last nine flat at price 10. -/
def c5dfBars : List Bar :=
  [mkb 1 2 3 1, mkb 2 3 4 2, mkb 3 4 5 3, mkb 4 5 6 4,
   mkb 5 6 7 5, mkb 6 7 8 6, mkb 7 8 9 7, mkb 8 9 10 8,
   mkb 9 10 11 9, mkb 10 11 12 10, mkb 9 10 11 9, mkb 8 9 10 8,
   mkb 7 8 9 7, mkb 6 7 8 6, mkb 7 8 9 7, mkb 8 9 10 8]
    ++ List.replicate 9 (mkb 10 10 10 10)

/-- C5 is false as stated for the cited data_fetcher implementation: its
RSV divides by the raw window range with no epsilon, so on a 25-bar
series whose trailing 9-bar window is flat the latest RSV denominator is
zero and the quotient is not finite (`none`). -/
theorem kdj_epsilon_guard_counterexample :
    c5dfBars.length = 25
      ∧ (∀ b ∈ c5dfBars.drop 16, b.low = 10 ∧ b.high = 10)
      ∧ (rsvDF c5dfBars).getD 24 none = none := by
  refine ⟨by decide, by decide, ?_⟩
  rw [rsvDF, getD_map_range _ _ _ (by decide)]
  norm_num [c5dfBars, mkb, windowAt, minD, maxD, min_def, max_def,
    List.replicate]

/-! ### C7: MACD on a monotonically rising close series

eastmoney_api lines 192-194 (same in data_fetcher lines 265-267):
```
macd_trend = 金叉 if latest["MACD"] > 0 and prev["MACD"] < 0 else
             死叉 if latest["MACD"] < 0 and prev["MACD"] > 0 else
             上升 if latest["MACD"] > 0 else 下降
```
with `latest = df.iloc[-1]` and `prev = df.iloc[-2] if len(df) > 1 else latest`.
-/

inductive MacdTrend
  /-- Label 金叉 (golden cross) -/
  | goldenCross
  /-- Label 死叉 (dead cross) -/
  | deadCross
  /-- Label 上升 (rising) -/
  | rising
  /-- Label 下降 (falling) -/
  | falling
  deriving DecidableEq, Repr

/-- Value of the latest row of a derived column (`df.iloc[-1]`). -/
def lastD (l : List ℚ) : ℚ := l.getD (l.length - 1) 0

/-- Value of the second-to-latest row, or the latest when only one row
exists (`df.iloc[-2] if len(df) > 1 else latest`). -/
def prevD (l : List ℚ) : ℚ :=
  if l.length > 1 then l.getD (l.length - 2) 0 else lastD l

/-- The MACD trend classifier over the latest two MACD_line values. -/
def macdTrendOf (t p : ℚ) : MacdTrend :=
  if 0 < t ∧ p < 0 then .goldenCross
  else if t < 0 ∧ 0 < p then .deadCross
  else if 0 < t then .rising
  else .falling

/-- The MACD trend label of the engine for a close series. -/
def macdTrendOfCloses (closes : List ℚ) : MacdTrend :=
  macdTrendOf (lastD (macdLine closes)) (prevD (macdLine closes))

/-- Decidable strict monotonic rise of a series. -/
def risingB : List ℚ → Bool
  | [] => true
  | [_] => true
  | x :: y :: xs => decide (x < y) && risingB (y :: xs)

theorem risingB_strict : ∀ (xs : List ℚ), risingB xs = true →
    ∀ i, i + 1 < xs.length → xs.getD i 0 < xs.getD (i + 1) 0 := by
  intro xs
  induction xs with
  | nil => intro _ i hi; simp at hi
  | cons x xs ih =>
    cases xs with
    | nil => intro _ i hi; simp at hi
    | cons y ys =>
      intro hr i hi
      rw [risingB, Bool.and_eq_true, decide_eq_true_eq] at hr
      obtain ⟨hxy, hrest⟩ := hr
      cases i with
      | zero => simpa using hxy
      | succ j =>
        have := ih hrest j (by simpa using hi)
        simpa using this

theorem ewmAF_getD_zero (α : ℚ) (xs : List ℚ) :
    (ewmAF α xs).getD 0 0 = xs.getD 0 0 := by
  cases xs <;> simp [ewmAF]

/-- On a strictly rising series the span-12 EMA never exceeds the
current value, dominates the span-26 EMA, and does so strictly from the
second position on. -/
theorem ewm_fast_dominates_slow (xs : List ℚ)
    (hmono : ∀ i, i + 1 < xs.length → xs.getD i 0 < xs.getD (i + 1) 0)
    (i : ℕ) (h : i < xs.length) :
    (ewmAF (2 / 13) xs).getD i 0 ≤ xs.getD i 0
      ∧ (ewmAF (2 / 27) xs).getD i 0 ≤ xs.getD i 0
      ∧ (ewmAF (2 / 27) xs).getD i 0 ≤ (ewmAF (2 / 13) xs).getD i 0
      ∧ (0 < i → (ewmAF (2 / 27) xs).getD i 0 < (ewmAF (2 / 13) xs).getD i 0) := by
  induction i with
  | zero =>
    rw [ewmAF_getD_zero, ewmAF_getD_zero]
    exact ⟨le_refl _, le_refl _, le_refl _, fun h0 => absurd h0 (lt_irrefl 0)⟩
  | succ j ih =>
    have hj : j < xs.length := Nat.lt_of_succ_lt h
    obtain ⟨hb1, hb2, hb3, _⟩ := ih hj
    have hx : xs.getD j 0 < xs.getD (j + 1) 0 := hmono j h
    rw [ewmAF_getD_succ (2 / 13) xs j h, ewmAF_getD_succ (2 / 27) xs j h]
    refine ⟨by linarith, by linarith, by linarith, fun _ => by linarith⟩

/-- C7 (amended): on every strictly rising close series of length at
least 26, the DIF value on the final bar is strictly positive.  (The
second half of the original claim — that the trend label is then "rising" or
"golden-cross" — fails on the code: a separate counterexample shows that
DEA may exceed DIF, making MACD_line negative and the label 下降/死叉.) -/
theorem macd_dif_positive_on_rising (closes : List ℚ)
    (hr : risingB closes = true) (hlen : 26 ≤ closes.length) :
    0 < lastD (macdDIF closes) := by
  have hmono := risingB_strict closes hr
  have hlen' : (macdDIF closes).length = closes.length := by
    simp [macdDIF, seriesSub, ewmSpan, ewmAF_length]
  have hn : closes.length - 1 < closes.length := by omega
  have hpos : 0 < closes.length - 1 := by omega
  have h12 : closes.length - 1 < (ewmSpan 12 closes).length := by
    simpa [ewmSpan, ewmAF_length] using hn
  have h26 : closes.length - 1 < (ewmSpan 26 closes).length := by
    simpa [ewmSpan, ewmAF_length] using hn
  have hsub := seriesSub_getD (ewmSpan 12 closes) (ewmSpan 26 closes)
    (closes.length - 1) h12 h26
  have he12 : ewmSpan 12 closes = ewmAF (2 / 13) closes := by
    rw [ewmSpan]; norm_num
  have he26 : ewmSpan 26 closes = ewmAF (2 / 27) closes := by
    rw [ewmSpan]; norm_num
  obtain ⟨_, _, _, hstrict⟩ :=
    ewm_fast_dominates_slow closes hmono (closes.length - 1) hn
  rw [lastD, hlen', macdDIF, hsub, he12, he26]
  have := hstrict hpos
  linarith

/-- Witness for the amended C7 theorem at a concrete strictly rising
26-bar close series. -/
def c7wit : List ℚ :=
  [1, 2, 3, 4, 5, 6, 7, 8, 9, 10, 11, 12, 13, 14,
   15, 16, 17, 18, 19, 20, 21, 22, 23, 24, 25, 26]

theorem macd_dif_positive_on_rising_witness :
    0 < lastD (macdDIF c7wit) :=
  macd_dif_positive_on_rising c7wit (by decide) (by decide)

/-- C7 counterexample input: a strictly rising close series that jumps
from 1 to 50 and then creeps up by 1 per bar. -/
def c7closes : List ℚ :=
  [1, 50, 51, 52, 53, 54, 55, 56, 57, 58, 59, 60, 61, 62,
   63, 64, 65, 66, 67, 68, 69, 70, 71, 72, 73, 74]

set_option maxHeartbeats 1000000 in
/-- C7 is false as stated: this strictly rising 26-bar close series gets
the MACD trend label 下降 ("falling") — after the early jump DIF decays
toward its steady state and DEA stays above it, so MACD_line < 0 on the
last two bars. -/
theorem macd_trend_on_rising_counterexample :
    risingB c7closes = true ∧ c7closes.length = 26
      ∧ macdTrendOfCloses c7closes = MacdTrend.falling := by
  refine ⟨by decide, by decide, ?_⟩
  norm_num [macdTrendOfCloses, macdTrendOf, lastD, prevD, macdLine, macdDEA,
    macdDIF, seriesSub, ewmSpan, ewmAF, ewmAFgo, c7closes]

/-! ### The indicator dictionary (eastmoney_api lines 129-255)

`get_technical_indicators` fetches the kline frame, returns `{}` when the
fetch produced nothing or fewer than 20 bars, computes the derived
columns, replaces the NaNs left by unfilled rolling windows with 0
(`df = df.fillna(0)`, line 184), and reads the last row into a result
record.  The record below carries the MACD, KDJ and MA entries of the
source dictionary; the RSI and Bollinger entries (whose band width needs
a square root) and the unexported `V_MA` columns are computed the same
way by the source but are not needed by any claim.  The empty dictionary
`{}` is embedded as `none`. -/

inductive Zone
  /-- Label 超买 (overbought) -/
  | overbought
  /-- Label 超卖 (oversold) -/
  | oversold
  /-- Label 中性 (neutral) -/
  | neutral
  deriving DecidableEq, Repr

inductive PriceTrend
  /-- Label 上涨 (price above MA30) -/
  | up
  /-- Label 下跌 (price below MA30) -/
  | down
  deriving DecidableEq, Repr

/-- Round to the nearest integer, ties to even — the behaviour of
`round` of Python 3 on exactly representable values. -/
def roundHalfEven (x : ℚ) : ℤ :=
  let f := ⌊x⌋
  let r := x - f
  if r < 1 / 2 then f
  else if 1 / 2 < r then f + 1
  else if f % 2 = 0 then f
  else f + 1

/-- Embedding of `round(x, n)` of Python. -/
def roundTo (n : ℕ) (x : ℚ) : ℚ := (roundHalfEven (x * 10 ^ n) : ℚ) / 10 ^ n

/-- The last value of a derived column after `df.fillna(0)`: a missing
value (NaN) is coerced to 0. -/
def lastFill (l : List (Option ℚ)) : ℚ := (l.getD (l.length - 1) none).getD 0

/-- KDJ zone label from the latest J (eastmoney_api line 197). -/
def zoneOfJ (j : ℚ) : Zone :=
  if 80 < j then .overbought else if j < 20 then .oversold else .neutral

/-- The claim-relevant entries of the indicator dictionary built at
eastmoney_api lines 210-247. -/
structure EmIndicators where
  dif : ℚ
  dea : ℚ
  macd : ℚ
  macdTrend : MacdTrend
  k : ℚ
  d : ℚ
  j : ℚ
  kdjTrend : Zone
  ma5 : ℚ
  ma10 : ℚ
  ma30 : ℚ
  ma60 : ℚ
  maTrend : PriceTrend
  deriving DecidableEq, Repr

/-- The indicator computation on a (date-sorted) series of at least 20
bars: derived columns, fillna(0), then the last row. -/
def computeIndicators (bars : List Bar) : EmIndicators :=
  let closes := bars.map Bar.close
  let line := macdLine closes
  { dif := roundTo 3 (lastD (macdDIF closes))
    dea := roundTo 3 (lastD (macdDEA closes))
    macd := roundTo 3 (lastD line)
    macdTrend := macdTrendOf (lastD line) (prevD line)
    k := roundTo 2 (lastFill (kdjK_EM bars))
    d := roundTo 2 (lastFill (kdjD_EM bars))
    j := roundTo 2 (lastFill (kdjJ_EM bars))
    kdjTrend := zoneOfJ (lastFill (kdjJ_EM bars))
    ma5 := roundTo 2 (lastFill (rollingMean 5 closes))
    ma10 := roundTo 2 (lastFill (rollingMean 10 closes))
    ma30 := roundTo 2 (lastFill (rollingMean 30 closes))
    ma60 := roundTo 2 (lastFill (rollingMean 60 closes))
    maTrend := if lastFill (rollingMean 30 closes) < lastD closes
      then .up else .down }

/-- eastmoney_api lines 129-255: `None` from the fetch or fewer than 20
bars yield the empty dictionary; otherwise the indicators are computed.
The source wraps the body in `try/except Exception: return {}`; the
embedded computation is total, so the except-branch has no reachable
counterpart. -/
def getTechnicalIndicators (fetch : Option (List Bar)) : Option EmIndicators :=
  match fetch with
  | none => none
  | some df => if df.length < 20 then none else some (computeIndicators df)

/-- C2: a series of fewer than 20 bars yields the explicit empty result
and no partial indicator output. -/
theorem insufficient_data_returns_empty (bars : List Bar)
    (h : bars.length < 20) :
    getTechnicalIndicators (some bars) = none := by
  simp [getTechnicalIndicators, h]

/-- A 15-bar series, as in the example of the spec. -/
def c2bars : List Bar := List.replicate 15 (mkb 1 1 1 1)

theorem insufficient_data_returns_empty_witness :
    c2bars.length < 20 ∧ getTechnicalIndicators (some c2bars) = none :=
  ⟨by decide, insufficient_data_returns_empty c2bars (by decide)⟩

/-- C10: `get_technical_indicators` is a total function into
`Option EmIndicators`; a missing kline frame and a too-short series both
produce the same empty dictionary, indistinguishable at the interface
(the catch-all `except` of the source maps any internal failure to the same
`{}`, and the embedding of the body is total). -/
theorem indicator_failures_indistinguishable :
    getTechnicalIndicators none = none
      ∧ ∀ bars : List Bar, bars.length < 20 →
          getTechnicalIndicators (some bars) = none
            ∧ getTechnicalIndicators (some bars) = getTechnicalIndicators none := by
  refine ⟨rfl, fun bars h => ?_⟩
  simp [getTechnicalIndicators, h]

def c10bars : List Bar := List.replicate 10 (mkb 2 2 2 2)

theorem indicator_failures_indistinguishable_witness :
    getTechnicalIndicators (some c10bars) = none
      ∧ getTechnicalIndicators (some c10bars) = getTechnicalIndicators none :=
  indicator_failures_indistinguishable.2 c10bars (by decide)

/-! ### C3: a moving average whose window has not filled is reported as 0 -/

theorem lastFill_rollingMean_unfilled (w : ℕ) (xs : List ℚ)
    (h0 : 0 < xs.length) (hw : xs.length < w) :
    lastFill (rollingMean w xs) = 0 := by
  have hlen : (rollingMean w xs).length = xs.length := by simp [rollingMean]
  rw [lastFill, hlen, rollingMean, getD_map_range _ _ _ (by omega)]
  have hsmall : xs.length - 1 + 1 < w := by omega
  simp [hsmall]

theorem roundTo_zero (n : ℕ) : roundTo n 0 = 0 := by
  norm_num [roundTo, roundHalfEven]

/-- The MA60 entry of the result record is the number 0 whenever the
series is shorter than 60 bars: `rolling(60).mean()` is NaN at the last
row and `fillna(0)` coerces it. -/
theorem ma60_field_zero (bars : List Bar) (h0 : 0 < bars.length)
    (h60 : bars.length < 60) : (computeIndicators bars).ma60 = 0 := by
  simp only [computeIndicators]
  rw [lastFill_rollingMean_unfilled 60 (bars.map Bar.close)
    (by simpa using h0) (by simpa using h60), roundTo_zero]

/-- C3 (amended): for every series of at least 20 but fewer than 60
bars, the reported MA60 value is exactly the number 0 — `fillna(0)`
coerces the NaN of the unfilled window, so no "unavailable" marker survives
to the result dictionary. -/
theorem ma60_reported_as_zero (bars : List Bar)
    (h20 : 20 ≤ bars.length) (h60 : bars.length < 60) :
    (getTechnicalIndicators (some bars)).map EmIndicators.ma60 = some 0 := by
  have hnot : ¬ bars.length < 20 := by omega
  simp [getTechnicalIndicators, hnot, ma60_field_zero bars (by omega) h60]

def c3wit : List Bar := List.replicate 30 (mkb 4 4 4 4)

theorem ma60_reported_as_zero_witness :
    (getTechnicalIndicators (some c3wit)).map EmIndicators.ma60 = some 0 :=
  ma60_reported_as_zero c3wit (by decide) (by decide)

def c3bars : List Bar := List.replicate 20 (mkb 3 3 3 3)

/-- C3 is false as stated: on this 20-bar series the MA60 entry of the
result is the number 0, not an "unavailable" marker. -/
theorem ma60_unavailable_counterexample :
    c3bars.length = 20
      ∧ (getTechnicalIndicators (some c3bars)).map EmIndicators.ma60 = some 0 := by
  refine ⟨by decide, ?_⟩
  have hnot : ¬ c3bars.length < 20 := by decide
  simp [getTechnicalIndicators, hnot,
    ma60_field_zero c3bars (by decide) (by decide)]

/-! ### The series builder (eastmoney_api lines 75-105, data_fetcher lines 320-343)

Each raw kline row is a comma-separated 11-field record
`date,open,close,high,low,volume,amount,amplitude,change_percent,change_amount,turnover`.
eastmoney_api splits the line, skips it when fewer than 11 fields remain,
parses each numeric field with `float` (an empty field is short-circuited
to 0 by the `if items[k] else 0` truthiness test), divides the four price
fields and the four percentage fields by 100, and on a `ValueError` or
`IndexError` logs and continues with the next row.  The data_fetcher copy
of the loop has no per-row guard at all: any malformed row raises out of
the loop and the whole fetch returns `None`. -/

/-- Embedding of `line.split(",")`: split a string at every comma, keeping empty
pieces. -/
def splitFieldsGo (cur : List Char) : List Char → List String
  | [] => [String.mk cur.reverse]
  | c :: rest =>
    if c = ',' then String.mk cur.reverse :: splitFieldsGo [] rest
    else splitFieldsGo (c :: cur) rest

def splitFields (s : String) : List String := splitFieldsGo [] s.toList

def digitsValGo (acc : ℕ) : List Char → ℕ
  | [] => acc
  | c :: cs => digitsValGo (10 * acc + (c.toNat - 48)) cs

/-- Numeric value of a digit string. -/
def digitsVal (cs : List Char) : ℕ := digitsValGo 0 cs

/-- Parse an optionally signed decimal literal into a numerator and a
power-of-ten denominator; `none` where the Python `float` builtin would raise
`ValueError`.  (The wire format of the provider carries only such literals.) -/
def parseDecAux (cs : List Char) : Option (ℤ × ℕ) :=
  let signed : Bool × List Char :=
    match cs with
    | '-' :: rest => (true, rest)
    | '+' :: rest => (false, rest)
    | _ => (false, cs)
  let neg := signed.1
  let body := signed.2
  let ip := body.takeWhile Char.isDigit
  let rest := body.dropWhile Char.isDigit
  let mk : ℕ → ℕ → Option (ℤ × ℕ) := fun mag den =>
    some (if neg then -(mag : ℤ) else (mag : ℤ), den)
  match rest with
  | [] => if ip.isEmpty then none else mk (digitsVal ip) 1
  | '.' :: frac =>
    if frac.all Char.isDigit && !(ip.isEmpty && frac.isEmpty) then
      mk (digitsVal ip * 10 ^ frac.length + digitsVal frac) (10 ^ frac.length)
    else none
  | _ => none

/-- The Python `float` builtin on a decimal-literal field. -/
def parseDecimal (s : String) : Option ℚ :=
  (parseDecAux s.toList).map fun p => (p.1 : ℚ) / (p.2 : ℚ)

/-- Embedding of `float(items[k]) if items[k] else 0`: an empty field is 0, a
nonempty field is parsed (a parse failure fails the row). -/
def parseField (s : String) : Option ℚ :=
  if s = "" then some 0 else parseDecimal s

/-- eastmoney_api lines 79-96: one split row to one Bar; price and
percentage fields divided by 100, volume and amount unscaled; `none`
when fewer than 11 fields or a field fails to parse (the row is then
skipped). -/
def parseFields (items : List String) : Option Bar :=
  if items.length < 11 then none
  else
    match parseField (items.getD 1 ""), parseField (items.getD 2 ""),
      parseField (items.getD 3 ""), parseField (items.getD 4 ""),
      parseField (items.getD 5 ""), parseField (items.getD 6 ""),
      parseField (items.getD 7 ""), parseField (items.getD 8 ""),
      parseField (items.getD 9 ""), parseField (items.getD 10 "") with
    | some v1, some v2, some v3, some v4, some v5, some v6, some v7,
        some v8, some v9, some v10 =>
      some ⟨items.getD 0 "", v1 / 100, v2 / 100, v3 / 100, v4 / 100,
        v5, v6, v7 / 100, v8 / 100, v9 / 100, v10 / 100⟩
    | _, _, _, _, _, _, _, _, _, _ => none

def parseRow (line : String) : Option Bar := parseFields (splitFields line)

/-- eastmoney_api lines 77-99: parse every row, skipping the failures. -/
def parseKlines (rows : List String) : List Bar := rows.filterMap parseRow

/-- eastmoney_api lines 101-105: no valid row at all yields `None`. -/
def buildSeries (rows : List String) : Option (List Bar) :=
  let k := parseKlines rows
  if k.isEmpty then none else some k

/-- data_fetcher lines 322-337: the same row shape but no `/100` scaling,
no empty-field default and no per-row guard — a malformed field or a
short row raises, caught only by the function-level handler. -/
def dfParseRow (line : String) : Option Bar :=
  let items := splitFields line
  if items.length < 11 then none
  else
    match parseDecimal (items.getD 1 ""), parseDecimal (items.getD 2 ""),
      parseDecimal (items.getD 3 ""), parseDecimal (items.getD 4 ""),
      parseDecimal (items.getD 5 ""), parseDecimal (items.getD 6 ""),
      parseDecimal (items.getD 7 ""), parseDecimal (items.getD 8 ""),
      parseDecimal (items.getD 9 ""), parseDecimal (items.getD 10 "") with
    | some v1, some v2, some v3, some v4, some v5, some v6, some v7,
        some v8, some v9, some v10 =>
      some ⟨items.getD 0 "", v1, v2, v3, v4, v5, v6, v7, v8, v9, v10⟩
    | _, _, _, _, _, _, _, _, _, _ => none

/-- data_fetcher lines 320-343: one bad row aborts the whole series
(the exception propagates to the function-level handler, which returns
`None`). -/
def dfParseKlines (rows : List String) : Option (List Bar) :=
  rows.mapM dfParseRow

/-! ### C6: field scaling of the series builder -/

/-- C6: the eastmoney_api builder divides the price fields (open, close,
high, low) and the percentage fields (amplitude, change_percent,
change_amount, turnover) by 100 and leaves volume and amount unscaled. -/
theorem kline_row_scaling
    (d s1 s2 s3 s4 s5 s6 s7 s8 s9 s10 : String)
    (v1 v2 v3 v4 v5 v6 v7 v8 v9 v10 : ℚ)
    (h1 : parseField s1 = some v1) (h2 : parseField s2 = some v2)
    (h3 : parseField s3 = some v3) (h4 : parseField s4 = some v4)
    (h5 : parseField s5 = some v5) (h6 : parseField s6 = some v6)
    (h7 : parseField s7 = some v7) (h8 : parseField s8 = some v8)
    (h9 : parseField s9 = some v9) (h10 : parseField s10 = some v10) :
    parseFields [d, s1, s2, s3, s4, s5, s6, s7, s8, s9, s10]
      = some ⟨d, v1 / 100, v2 / 100, v3 / 100, v4 / 100, v5, v6,
          v7 / 100, v8 / 100, v9 / 100, v10 / 100⟩ := by
  simp [parseFields, h1, h2, h3, h4, h5, h6, h7, h8, h9, h10]

theorem parseField_eval (s : String) (num : ℤ) (den : ℕ) (v : ℚ)
    (hne : ¬ s = "") (h : parseDecAux s.toList = some (num, den))
    (hv : (num : ℚ) / (den : ℚ) = v) : parseField s = some v := by
  have hd : parseDecimal s = some v := by
    rw [parseDecimal, h]
    exact congrArg some hv
  simp [parseField, hne, hd]

/-- Witness for C6: the example row of the spec
`"20240102,1000,1010,1020,990,50000,5000000,300,100,10,150"` parses to
open 10, close 10.10, high 10.20, low 9.90, volume 50000, amount
5000000, amplitude 3, change_percent 1, change_amount 0.10,
turnover 1.50. -/
theorem kline_row_scaling_witness :
    parseRow "20240102,1000,1010,1020,990,50000,5000000,300,100,10,150"
      = some ⟨"20240102", 10, 101 / 10, 51 / 5, 99 / 10, 50000, 5000000,
          3, 1, 1 / 10, 3 / 2⟩ := by
  rw [parseRow,
    show splitFields "20240102,1000,1010,1020,990,50000,5000000,300,100,10,150"
        = ["20240102", "1000", "1010", "1020", "990", "50000", "5000000",
           "300", "100", "10", "150"] from by decide,
    kline_row_scaling "20240102" "1000" "1010" "1020" "990" "50000"
      "5000000" "300" "100" "10" "150" 1000 1010 1020 990 50000 5000000
      300 100 10 150
      (parseField_eval _ 1000 1 _ (by decide) (by decide) (by norm_num))
      (parseField_eval _ 1010 1 _ (by decide) (by decide) (by norm_num))
      (parseField_eval _ 1020 1 _ (by decide) (by decide) (by norm_num))
      (parseField_eval _ 990 1 _ (by decide) (by decide) (by norm_num))
      (parseField_eval _ 50000 1 _ (by decide) (by decide) (by norm_num))
      (parseField_eval _ 5000000 1 _ (by decide) (by decide) (by norm_num))
      (parseField_eval _ 300 1 _ (by decide) (by decide) (by norm_num))
      (parseField_eval _ 100 1 _ (by decide) (by decide) (by norm_num))
      (parseField_eval _ 10 1 _ (by decide) (by decide) (by norm_num))
      (parseField_eval _ 150 1 _ (by decide) (by decide) (by norm_num))]
  simp only [Bar.mk.injEq, Option.some.injEq]
  norm_num

/-! ### C8: malformed rows -/

/-- C8 (amended, eastmoney_api side): the eastmoney_api builder skips a
bad row and parses the remaining rows, a row with fewer than 11 fields
always fails (and is therefore skipped, never raised on), and an empty
field parses to 0.  The data_fetcher copy of the builder instead aborts
the whole series on one bad row, as a separate counterexample shows. -/
theorem builder_skip_and_continue :
    (∀ (pre post : List String) (bad : String), parseRow bad = none →
        parseKlines (pre ++ bad :: post) = parseKlines (pre ++ post))
      ∧ (∀ line : String, (splitFields line).length < 11 →
          parseRow line = none)
      ∧ parseField "" = some 0 := by
  refine ⟨?_, ?_, by simp [parseField]⟩
  · intro pre post bad h
    simp [parseKlines, List.filterMap_append, List.filterMap_cons, h]
  · intro line h
    simp [parseRow, parseFields, h]

def c8good : String := "20240103,1100,1110,1120,1090,60000,6000000,310,110,11,160"

def c8bad : String := "20240104,12"

theorem builder_skip_and_continue_witness :
    parseKlines [c8good, c8bad] = parseKlines [c8good]
      ∧ parseRow c8bad = none :=
  ⟨builder_skip_and_continue.1 [c8good] [] c8bad
      (builder_skip_and_continue.2.1 c8bad (by decide)),
   builder_skip_and_continue.2.1 c8bad (by decide)⟩

/-- C8 is false as stated for the cited data_fetcher builder: one
malformed (2-field) row makes the whole series `None`, while the
eastmoney_api builder still parses the remaining good row. -/
theorem builder_abort_counterexample :
    dfParseKlines [c8good, c8bad] = none
      ∧ (parseKlines [c8good, c8bad]).length = 1 := by decide

/-! ### C9: the two KDJ smoothing variants

data_fetcher line 247 smooths RSV with `Series.ewm(com=2).mean()`.  With
`com = 2` the smoothing factor is `α = 1/(1+com) = 1/3`, but the pandas
default `adjust=True` computes the weighted average
`yₜ = Σᵢ (1-α)^i x₍ₜ₋ᵢ₎ / Σᵢ (1-α)^i`, maintained below through a
numerator/denominator pair.  eastmoney_api line 154 uses
`ewm(alpha=1/3, adjust=False)` — the plain recursion `ewmAF`. -/

def ewmATgo (α : ℚ) (num den : ℚ) : List ℚ → List ℚ
  | [] => []
  | x :: xs =>
    let n := x + (1 - α) * num
    let d := 1 + (1 - α) * den
    n / d :: ewmATgo α n d xs

/-- Embedding of `Series.ewm(alpha=α).mean()` with the pandas default `adjust=True`. -/
def ewmAT (α : ℚ) (xs : List ℚ) : List ℚ := ewmATgo α 0 0 xs

/-- The data_fetcher K smoothing: `ewm(com=2).mean()`, α = 1/(1+2). -/
def dfSmooth (xs : List ℚ) : List ℚ := ewmAT (1 / 3) xs

/-- The eastmoney_api K smoothing: `ewm(alpha=1/3, adjust=False).mean()`. -/
def emSmooth (xs : List ℚ) : List ℚ := ewmAF (1 / 3) xs

/-- C9 is false as stated: on the RSV series [0, 1] the com=2
(adjust=True) smoothing yields 3/5 at position 1 while the alpha=1/3
(adjust=False) recursion yields 1/3. -/
theorem kdj_smoothing_equivalence_counterexample :
    dfSmooth [0, 1] = [0, 3 / 5] ∧ emSmooth [0, 1] = [0, 1 / 3]
      ∧ (dfSmooth [0, 1]).getD 1 0 ≠ (emSmooth [0, 1]).getD 1 0 := by
  refine ⟨?_, ?_, ?_⟩ <;>
    norm_num [dfSmooth, emSmooth, ewmAT, ewmATgo, ewmAF, ewmAFgo]

theorem ewmATgo_const (α : ℚ) (hα1 : α ≤ 1) (x : ℚ) :
    ∀ (n : ℕ) (den : ℚ), 0 ≤ den →
      ewmATgo α (x * den) den (List.replicate n x) = List.replicate n x := by
  intro n
  induction n with
  | zero => intro den _; simp [ewmATgo]
  | succ m ih =>
    intro den hden
    have hd : (0:ℚ) < 1 + (1 - α) * den := by nlinarith
    rw [List.replicate_succ]
    show ewmATgo α (x * den) den (x :: List.replicate m x)
      = x :: List.replicate m x
    simp only [ewmATgo]
    have hnum : x + (1 - α) * (x * den) = x * (1 + (1 - α) * den) := by ring
    rw [hnum, mul_div_cancel_right₀ x (ne_of_gt hd)]
    exact congrArg (x :: ·) (ih (1 + (1 - α) * den) (le_of_lt hd))

theorem ewmAFgo_const (α : ℚ) (x : ℚ) :
    ∀ n : ℕ, ewmAFgo α x (List.replicate n x) = List.replicate n x := by
  intro n
  induction n with
  | zero => simp [ewmAFgo]
  | succ m ih =>
    rw [List.replicate_succ]
    show ewmAFgo α x (x :: List.replicate m x) = x :: List.replicate m x
    simp only [ewmAFgo]
    have hy : α * x + (1 - α) * x = x := by ring
    rw [hy, ih]

/-- C9 (amended): both smoothing calls fix the same factor α = 1/3, and
the two variants agree on the first output value and on constant RSV
series; but com=2 keeps the pandas default adjust=True weighting, so the
series differ in general. -/
theorem kdj_smoothing_amended (x : ℚ) (xs : List ℚ) (n : ℕ) :
    (dfSmooth (x :: xs)).getD 0 0 = x
      ∧ (emSmooth (x :: xs)).getD 0 0 = x
      ∧ dfSmooth (List.replicate n x) = List.replicate n x
      ∧ emSmooth (List.replicate n x) = List.replicate n x := by
  refine ⟨?_, ?_, ?_, ?_⟩
  · simp [dfSmooth, ewmAT, ewmATgo]
  · simp [emSmooth, ewmAF]
  · have := ewmATgo_const (1 / 3) (by norm_num) x n 0 (le_refl 0)
    simpa [dfSmooth, ewmAT] using this
  · cases n with
    | zero => rfl
    | succ m =>
      rw [List.replicate_succ]
      show ewmAF (1 / 3) (x :: List.replicate m x) = _
      rw [ewmAF, ewmAFgo_const]

/-- Witness for the amended C9 theorem at x = 5, xs = [], n = 3. -/
theorem kdj_smoothing_amended_witness :
    (dfSmooth [5]).getD 0 0 = 5 ∧ (emSmooth [5]).getD 0 0 = 5
      ∧ dfSmooth (List.replicate 3 5) = List.replicate 3 5
      ∧ emSmooth (List.replicate 3 5) = List.replicate 3 5 :=
  kdj_smoothing_amended 5 [] 3

/-- Witness for C1 at the concrete close series [10, 11, 12]. -/
theorem macd_matches_spec_witness :
    (2 : ℕ) < ([10, 11, 12] : List ℚ).length
      ∧ ((macdDIF [10, 11, 12]).getD 2 0
          = emaSpec (2 / 13) [10, 11, 12] 2 - emaSpec (2 / 27) [10, 11, 12] 2
        ∧ (macdDEA [10, 11, 12]).getD 2 0
          = emaSpec (2 / 10) (macdDIF [10, 11, 12]) 2
        ∧ (macdLine [10, 11, 12]).getD 2 0
          = ((macdDIF [10, 11, 12]).getD 2 0
              - (macdDEA [10, 11, 12]).getD 2 0) * 2) :=
  ⟨by decide, macd_matches_spec [10, 11, 12] 2 (by decide)⟩

end LightAIHF
